import Mathlib

/-!
Verification of the advanced-vector container (`src/advanced-vector/vector.h`).

The development shallowly embeds the two C++ classes:

* `RawMemory<T>` — a raw buffer owner.  At the value level a buffer is a list
  of slots, each slot either holding a constructed element (`some a`) or raw
  uninitialized memory (`none`).
* `Vector<T>` — the container: one buffer plus `size_`.

Two models are built from the source:

* a pure value-level model (`AV.Vector` with operations named after the C++
  member functions) used for functional-correctness and invariant claims, and
* an instrumented model (`AV.IVec`) that additionally threads an element
  construction counter (so that a fault model `fm : Nat → Bool` can make the
  n-th element construction throw, matching a test type that throws on a
  chosen invocation count), a fresh-block counter, and a trace of
  allocation / deallocation / constructor / destructor events.  It is used for
  the exception-safety and resource claims.
-/

set_option maxHeartbeats 1000000
set_option maxRecDepth 4000

namespace AV

variable {α : Type}

/-- A raw buffer of slots: `some a` is a constructed element with value `a`,
`none` is raw uninitialized memory.  The capacity is the list length. -/
abbrev Mem (α : Type) : Type := List (Option α)

/-- Read slot `i` of a buffer (out-of-range reads return `none`; the code never
reads out of range on the modelled paths). -/
def mread (m : Mem α) (i : Nat) : Option α := (m[i]?).getD none

/-- The slot array of a well-formed vector: `l.length` constructed slots
followed by `k` uninitialized ones. -/
def canonSlots (l : List α) (k : Nat) : Mem α :=
  l.map some ++ List.replicate k none

/-- `Vector<T>`: `data` models the buffer owned by the `RawMemory` member
`data_` (capacity = `data.length`), `size` models `size_`. -/
structure Vector (α : Type) : Type where
  data : Mem α
  size : Nat
deriving DecidableEq

/-- Capacity, i.e. `data_.Capacity()`. -/
def Vector.cap (v : Vector α) : Nat := v.data.length

/-- The sequence of live elements, i.e. the values in slots `[0, size)`. -/
def Vector.elems (v : Vector α) : List α := (v.data.take v.size).filterMap id

/-- The well-formed vector whose live elements are `l` and which has `k`
trailing uninitialized slots. -/
def canon (l : List α) (k : Nat) : Vector α := ⟨canonSlots l k, l.length⟩

/-- The sequence `l` with `x` inserted at position `p` (statement-side
description of a positional insert). -/
def insertAtL (l : List α) (p : Nat) (x : α) : List α := l.take p ++ x :: l.drop p

/-- The sequence `l` with the element at position `p` removed (statement-side
description of a positional erase). -/
def eraseAtL (l : List α) (p : Nat) : List α := l.take p ++ l.drop (p+1)

/-- `std::uninitialized_copy_n` / `std::copy_n` at the value level: write
`dst[d+t] := src[s+t]` for `t < n`, reading from the fixed source buffer
(`copyRange src s d n dst`). -/
def copyRange (src : Mem α) : Nat → Nat → Nat → Mem α → Mem α
  | _s, _d, 0, dst => dst
  | s, d, n+1, dst => copyRange src (s+1) (d+1) n (dst.set d (mread src s))

/-- `std::uninitialized_value_construct_n` at the value level: write the
default value `x` into slots `[d, d+n)` (`fillRange x d n m`). -/
def fillRange (x : α) : Nat → Nat → Mem α → Mem α
  | _d, 0, m => m
  | d, n+1, m => fillRange x (d+1) n (m.set d (some x))

/-- `std::destroy_n` at the value level: slots `[d, d+n)` become uninitialized
(`clearRange d n m`). -/
def clearRange : Nat → Nat → Mem α → Mem α
  | _d, 0, m => m
  | d, n+1, m => clearRange (d+1) n (m.set d none)

/-- `std::move(first, last, d_first)` over one buffer: ascending element-wise
move-assignment, `m[d+t] := m[s+t]` for `t < n` in increasing `t`
(`moveRangeFwd d s n m`).  A moved-from slot keeps a value at this level. -/
def moveRangeFwd : Nat → Nat → Nat → Mem α → Mem α
  | _d, _s, 0, m => m
  | d, s, n+1, m => moveRangeFwd (d+1) (s+1) n (m.set d (mread m s))

/-- `std::move_backward(first, last, d_last)` over one buffer: descending
element-wise move-assignment of `n` elements ending below `sl` to the range
ending below `dl` (`moveRangeBwd dl sl n m`). -/
def moveRangeBwd : Nat → Nat → Nat → Mem α → Mem α
  | _dl, _sl, 0, m => m
  | dl, sl, n+1, m => moveRangeBwd (dl-1) (sl-1) n (m.set (dl-1) (mread m (sl-1)))

/-- `Vector()` — default construction: no allocation, `size_ = 0`. -/
def vempty : Vector α := ⟨[], 0⟩

/-- `Vector(size_t)` — allocate exactly `n` slots and value-initialize all of
them; `d` is the value produced by `T()`. -/
def mkSized (d : α) (n : Nat) : Vector α :=
  ⟨fillRange d 0 n (List.replicate n none), n⟩

/-- `Vector(const Vector&)` — allocate exactly `other.size_` slots and
copy-construct the elements in order (`std::uninitialized_copy_n`). -/
def Vector.copyCtor (other : Vector α) : Vector α :=
  ⟨copyRange other.data 0 0 other.size (List.replicate other.size none), other.size⟩

/-- `Vector(Vector&&)` — transfer the buffer, source becomes `(null, 0)` with
`size_ = 0`; returns (constructed vector, moved-from source). -/
def Vector.moveCtor (other : Vector α) : Vector α × Vector α :=
  (⟨other.data, other.size⟩, ⟨[], 0⟩)

/-- `operator=(Vector&&)` — `data_ = std::move(rhs.data_)` and
`size_ = std::exchange(rhs.size_, 0)`; returns (assigned-to vector, moved-from
source).  No element is constructed or destroyed. -/
def Vector.moveAssign (_dst src : Vector α) : Vector α × Vector α :=
  (⟨src.data, src.size⟩, ⟨[], 0⟩)

/-- `Swap` — exchange buffers and sizes. -/
def Vector.swapOp (a b : Vector α) : Vector α × Vector α :=
  (⟨b.data, b.size⟩, ⟨a.data, a.size⟩)

/-- `PushBack` / the tail case of `EmplaceBack`: on `size_ == Capacity()`
allocate `size_ == 0 ? 1 : size_ * 2` slots, construct the new element at
slot `size_` of the new buffer, transfer the old elements
(`TransferDataSafely`), destroy the old ones and adopt the new buffer;
otherwise construct in place at slot `size_`.  Copy-, move- and forwarded
construction all yield the same value, so one function models the three
overloads. -/
def Vector.PushBack (v : Vector α) (x : α) : Vector α :=
  if v.size = v.data.length then
    let newCap := if v.size = 0 then 1 else v.size * 2
    let nd := (List.replicate newCap (none : Option α)).set v.size (some x)
    ⟨copyRange v.data 0 0 v.size nd, v.size + 1⟩
  else
    ⟨v.data.set v.size (some x), v.size + 1⟩

/-- `PopBack` body under its precondition `size_ > 0`: destroy the last
element, decrement `size_`. -/
def Vector.PopBack (v : Vector α) : Vector α :=
  ⟨v.data.set (v.size - 1) none, v.size - 1⟩

/-- `Emplace` / `Insert` at offset `pos`:
* `pos == size_` delegates to `EmplaceBack`;
* on growth, construct the new element at its final offset of the new buffer,
  transfer the elements before the position and, separately, the elements from
  the position on around it, destroy the old elements, adopt the new buffer;
* otherwise move-construct the last element into the trailing free slot, shift
  `[pos, size_-1)` one slot right with `std::move_backward`, and move-assign a
  temporary built from the arguments into slot `pos`. -/
def Vector.Emplace (v : Vector α) (pos : Nat) (x : α) : Vector α :=
  if pos = v.size then v.PushBack x
  else if v.size = v.data.length then
    let newCap := if v.size = 0 then 1 else v.size * 2
    let nd := (List.replicate newCap (none : Option α)).set pos (some x)
    let nd2 := copyRange v.data 0 0 pos nd
    let nd3 := copyRange v.data pos (pos+1) (v.size - pos) nd2
    ⟨nd3, v.size + 1⟩
  else
    let m1 := v.data.set v.size (mread v.data (v.size - 1))
    let m2 := moveRangeBwd v.size (v.size - 1) (v.size - 1 - pos) m1
    ⟨m2.set pos (some x), v.size + 1⟩

/-- `Erase` at offset `pos` (precondition `pos < size_`): move-assign each
element of `(pos, size_)` one slot left, destroy the duplicate last slot,
decrement `size_`. -/
def Vector.Erase (v : Vector α) (pos : Nat) : Vector α :=
  ⟨(moveRangeFwd pos (pos+1) (v.size - (pos+1)) v.data).set (v.size - 1) none,
   v.size - 1⟩

/-- `Reserve`: no-op if `new_capacity <= Capacity()`, otherwise allocate
exactly `new_capacity` slots, transfer the elements, destroy the old ones and
swap the buffers. -/
def Vector.Reserve (v : Vector α) (n : Nat) : Vector α :=
  if n ≤ v.data.length then v
  else ⟨copyRange v.data 0 0 v.size (List.replicate n none), v.size⟩

/-- `Resize`: shrink by destroying the trailing elements, or grow by a
`Reserve` followed by value-initializing the new trailing slots (`d` is the
value produced by `T()`). -/
def Vector.Resize (d : α) (v : Vector α) (n : Nat) : Vector α :=
  if n < v.size then ⟨clearRange n (v.size - n) v.data, n⟩
  else
    let v1 := v.Reserve n
    ⟨fillRange d v.size (n - v.size) v1.data, n⟩

/-- `operator=(const Vector&)`.  `isSelf` models the `this == &rhs` pointer
test, which short-circuits to a no-op.  Otherwise: if `rhs.size_` exceeds the
capacity, build a temporary copy and swap it in; else reuse the buffer:
copy-assign over the overlapping part and either destroy the excess trailing
elements or copy-construct the missing ones. -/
def Vector.copyAssign (isSelf : Bool) (dst src : Vector α) : Vector α :=
  if isSelf then dst
  else if dst.data.length < src.size then src.copyCtor
  else if src.size < dst.size then
    ⟨clearRange src.size (dst.size - src.size)
       (copyRange src.data 0 0 src.size dst.data), src.size⟩
  else
    ⟨copyRange src.data dst.size dst.size (src.size - dst.size)
       (copyRange src.data 0 0 dst.size dst.data), src.size⟩

/-- The states reachable from the constructors by the public mutating
operations, each invoked within its documented precondition.  `d` is the value
produced by `T()`.  Move construction/assignment and `Swap` only produce
states (or the state `vempty`) that are already in the closure, and
self-copy-assignment returns `*this` unchanged, so they add no states. -/
inductive Reachable (d : α) : Vector α → Prop
  | empty : Reachable d vempty
  | sized (n : Nat) : Reachable d (mkSized d n)
  | copied (v : Vector α) : Reachable d v → Reachable d v.copyCtor
  | push (v : Vector α) (x : α) : Reachable d v → Reachable d (v.PushBack x)
  | pop (v : Vector α) : Reachable d v → 0 < v.size → Reachable d v.PopBack
  | emplace (v : Vector α) (pos : Nat) (x : α) :
      Reachable d v → pos ≤ v.size → Reachable d (v.Emplace pos x)
  | erase (v : Vector α) (pos : Nat) :
      Reachable d v → pos < v.size → Reachable d (v.Erase pos)
  | reserve (v : Vector α) (n : Nat) : Reachable d v → Reachable d (v.Reserve n)
  | resize (v : Vector α) (n : Nat) : Reachable d v → Reachable d (Vector.Resize d v n)
  | assign (dst src : Vector α) :
      Reachable d dst → Reachable d src → Reachable d (Vector.copyAssign false dst src)

/-- Outcome of a call at the public boundary: a value, a tripped `assert`, or
undefined behavior that no assertion guards. -/
inductive Outcome (α : Type) : Type
  | ok (a : α)
  | assertFail
  | ub
deriving DecidableEq

/-- `Vector::operator[]`: `assert(index < size_)`, then `RawMemory::operator[]`
with its own `assert(index < capacity_)`; reading an unconstructed slot would
be undefined behavior. -/
def vecIndex (v : Vector α) (i : Nat) : Outcome α :=
  if i < v.size then
    if i < v.data.length then
      match mread v.data i with
      | some a => Outcome.ok a
      | none => Outcome.ub
    else Outcome.assertFail
  else Outcome.assertFail

/-- `RawMemory::operator+`: `assert(offset <= capacity_)`; one-past-the-end is
allowed, larger offsets trip the assertion. -/
def rawPlus (m : Mem α) (off : Nat) : Outcome Nat :=
  if off ≤ m.length then Outcome.ok off else Outcome.assertFail

/-- `PopBack` as written: `std::destroy_at(data_.GetAddress() + (size_ - 1))`
then `--size_`, with no assertion.  On an empty vector `size_ - 1` wraps
around, so the destroy hits memory far outside the buffer: unchecked undefined
behavior, not a tripped assert.  (Destroying an unconstructed slot would
likewise be undefined.) -/
def popBackO (v : Vector α) : Outcome (Vector α) :=
  if v.size = 0 then Outcome.ub
  else
    match mread v.data (v.size - 1) with
    | some _ => Outcome.ok ⟨v.data.set (v.size - 1) none, v.size - 1⟩
    | none => Outcome.ub

/-! ### Instrumented model -/

/-- Events observable at the resource level: allocation and deallocation of a
raw block (identified by a fresh id), element constructor runs, element
destructor runs. -/
inductive Ev : Type
  | alloc (id : Nat)
  | free (id : Nat)
  | ctor
  | dtor
deriving DecidableEq

/-- Instrumentation state: `cnt` counts element-construction attempts (the
fault model is indexed by it), `nextId` numbers raw blocks, `tr` is the event
trace. -/
structure St : Type where
  cnt : Nat
  nextId : Nat
  tr : List Ev
deriving DecidableEq

/-- Append events to the trace. -/
def emit (st : St) (es : List Ev) : St := ⟨st.cnt, st.nextId, st.tr ++ es⟩

/-- Count one element-construction attempt. -/
def bump (st : St) : St := ⟨st.cnt + 1, st.nextId, st.tr⟩

/-- Instrumented `RawMemory<T>`: the owned block id (`none` models a null
`buffer_`) and its slots. -/
structure RawMemory (α : Type) : Type where
  blk : Option Nat
  slots : Mem α
deriving DecidableEq

/-- Instrumented `Vector<T>`. -/
structure IVec (α : Type) : Type where
  data : RawMemory α
  size : Nat
deriving DecidableEq

/-- The elements of an instrumented vector. -/
def ielems (v : IVec α) : List α := (v.data.slots.take v.size).filterMap id

/-- `RawMemory::Allocate`: `operator new` for `n != 0` (a fresh block id and an
`alloc` event), a null buffer for `n == 0`. -/
def allocRaw (n : Nat) (st : St) : RawMemory α × St :=
  if n = 0 then (⟨none, []⟩, st)
  else (⟨some st.nextId, List.replicate n none⟩,
        ⟨st.cnt, st.nextId + 1, st.tr ++ [Ev.alloc st.nextId]⟩)

/-- `RawMemory::~RawMemory` / `Deallocate`: `operator delete(buffer_)` — a
no-op on a null buffer. -/
def freeRaw (r : RawMemory α) (st : St) : St :=
  match r.blk with
  | none => st
  | some i => emit st [Ev.free i]

/-- The fault model under which no element construction throws. -/
def noFail : Nat → Bool := fun _ => false

/-- Faulted `std::uninitialized_copy_n` (`uCopyF fm src s d n done dst st`):
copy `n` elements from `src[s..]` to `dst[d..]`, having already made `done`
copies in this call.  Every element copy is one construction attempt; if the
fault model makes it throw, the algorithm destroys the copies it has already
constructed (emitting their `dtor` events) and the exception propagates
(result `none`). -/
def uCopyF (fm : Nat → Bool) (src : Mem α) :
    Nat → Nat → Nat → Nat → Mem α → St → Option (Mem α) × St
  | _s, _d, 0, _done, dst, st => (some dst, st)
  | s, d, n+1, done, dst, st =>
    if fm st.cnt then (none, emit (bump st) (List.replicate done Ev.dtor))
    else uCopyF fm src (s+1) (d+1) n (done+1)
           (dst.set d (mread src s)) (emit (bump st) [Ev.ctor])

/-- Faulted `std::uninitialized_value_construct_n`, with the same rollback
behavior as `uCopyF`. -/
def uFillF (fm : Nat → Bool) (x : α) :
    Nat → Nat → Nat → Mem α → St → Option (Mem α) × St
  | _d, 0, _done, dst, st => (some dst, st)
  | d, n+1, done, dst, st =>
    if fm st.cnt then (none, emit (bump st) (List.replicate done Ev.dtor))
    else uFillF fm x (d+1) n (done+1)
           (dst.set d (some x)) (emit (bump st) [Ev.ctor])

/-- Instrumented `Vector(size_t)`: allocate, then value-initialize; if an
element constructor throws, the already-constructed elements are destroyed and
the member `data_` is destroyed during unwinding, releasing the block. -/
def sizedI (fm : Nat → Bool) (x : α) (n : Nat) (st : St) : Option (IVec α) × St :=
  let p := allocRaw n st
  let q := uFillF fm x 0 n 0 p.1.slots p.2
  match q.1 with
  | none => (none, freeRaw p.1 q.2)
  | some m => (some ⟨⟨p.1.blk, m⟩, n⟩, q.2)

/-- Instrumented `EmplaceBack` (and `PushBack`, whose body is the same up to
the construction of the tail element).  On the growth path the code is

    RawMemory<T> new_data(size_ == 0 ? 1 : size_ * 2);
    emplaced_value = new (new_data + size_) T(std::forward<Args>(args)...);
    TransferDataSafely(data_.GetAddress(), size_, new_data.GetAddress());
    std::destroy_n(data_.GetAddress(), size_);
    data_ = std::move(new_data);

with no try/catch: if the transfer throws, the tail element already
constructed at `new_data + size_` is never destroyed ( `new_data`'s destructor
only frees the raw block), and on success `data_ = std::move(new_data)`
overwrites the old buffer handle without deallocating it (`RawMemory`'s move
assignment does not free the current block), so no `free` event is emitted for
the old block.  The transfer is modelled on the copying branch of
`TransferDataSafely` (the branch taken by any type whose move constructor may
throw), and an `Except.error` result carries the state of the container after
the failed call. -/
def emplaceBackI (fm : Nat → Bool) (x : α) (v : IVec α) (st : St) :
    Except (IVec α) (IVec α) × St :=
  if v.size = v.data.slots.length then
    let p := allocRaw (if v.size = 0 then 1 else v.size * 2) st
    if fm p.2.cnt then (Except.error v, freeRaw p.1 (bump p.2))
    else
      let m1 := p.1.slots.set v.size (some x)
      let q := uCopyF fm v.data.slots 0 0 v.size 0 m1 (emit (bump p.2) [Ev.ctor])
      match q.1 with
      | none => (Except.error v, freeRaw p.1 q.2)
      | some m2 =>
        (Except.ok ⟨⟨p.1.blk, m2⟩, v.size + 1⟩,
         emit q.2 (List.replicate v.size Ev.dtor))
  else
    if fm st.cnt then (Except.error v, bump st)
    else (Except.ok ⟨⟨v.data.blk, v.data.slots.set v.size (some x)⟩, v.size + 1⟩,
          emit (bump st) [Ev.ctor])

/-- Instrumented `Emplace` at offset `pos`; the third component counts the
destructor calls made by the `catch` handlers of the growth path.  The growth
path constructs the new element at its final offset first, then transfers the
elements before `pos` (on a throw: destroy the new element, release the new
block, rethrow), then the elements from `pos` on (on a throw: destroy the
first `pos + 1` slots of the new buffer, i.e. the transferred ones plus the
new element, release the new block, rethrow); only on full success are the old
elements destroyed and the new buffer adopted (again without a `free` of the
old block, see `emplaceBackI`).  On the non-growth path the last element is
move-constructed into the trailing slot, `[pos, size_-1)` is shifted right,
and a temporary built from the arguments is move-assigned into slot `pos` and
destroyed. -/
def emplaceI (fm : Nat → Bool) (x : α) (pos : Nat) (v : IVec α) (st : St) :
    Except (IVec α) (IVec α) × St × Nat :=
  if pos = v.size then
    let r := emplaceBackI fm x v st
    (r.1, r.2, 0)
  else if v.size = v.data.slots.length then
    let p := allocRaw (if v.size = 0 then 1 else v.size * 2) st
    if fm p.2.cnt then (Except.error v, freeRaw p.1 (bump p.2), 0)
    else
      let m1 := p.1.slots.set pos (some x)
      let q := uCopyF fm v.data.slots 0 0 pos 0 m1 (emit (bump p.2) [Ev.ctor])
      match q.1 with
      | none => (Except.error v, freeRaw p.1 (emit q.2 [Ev.dtor]), 1)
      | some m2 =>
        let r := uCopyF fm v.data.slots pos (pos+1) (v.size - pos) 0 m2 q.2
        match r.1 with
        | none =>
          (Except.error v,
           freeRaw p.1 (emit r.2 (List.replicate (pos+1) Ev.dtor)), pos + 1)
        | some m3 =>
          (Except.ok ⟨⟨p.1.blk, m3⟩, v.size + 1⟩,
           emit r.2 (List.replicate v.size Ev.dtor), 0)
  else
    if fm st.cnt then (Except.error v, bump st, 0)
    else
      let st1 := emit (bump st) [Ev.ctor]
      let m1 := v.data.slots.set v.size (mread v.data.slots (v.size - 1))
      let m2 := moveRangeBwd v.size (v.size - 1) (v.size - 1 - pos) m1
      if fm st1.cnt then
        (Except.error ⟨⟨v.data.blk, m2⟩, v.size⟩, bump st1, 0)
      else
        (Except.ok ⟨⟨v.data.blk, m2.set pos (some x)⟩, v.size + 1⟩,
         emit (bump st1) [Ev.ctor, Ev.dtor], 0)

/-- Instrumented `operator=(const Vector&)` on the non-self path.  If
`rhs.size_` exceeds the capacity: build a temporary copy (on a throw the
temporary's partial contents are destroyed, its block released, and `*this` is
untouched) and swap it in, after which the temporary's destructor destroys the
old elements and releases the old block.  Otherwise reuse the buffer:
copy-assign over the overlapping part (element copy-assignment is modelled as
not throwing; this path only gives the basic guarantee) and destroy the excess
or copy-construct the missing trailing elements. -/
def copyAssignI (fm : Nat → Bool) (dst src : IVec α) (st : St) :
    Except (IVec α) (IVec α) × St :=
  if dst.data.slots.length < src.size then
    let p := allocRaw src.size st
    let q := uCopyF fm src.data.slots 0 0 src.size 0 p.1.slots p.2
    match q.1 with
    | none => (Except.error dst, freeRaw p.1 q.2)
    | some m =>
      (Except.ok ⟨⟨p.1.blk, m⟩, src.size⟩,
       freeRaw dst.data (emit q.2 (List.replicate dst.size Ev.dtor)))
  else if src.size < dst.size then
    (Except.ok ⟨⟨dst.data.blk,
       clearRange src.size (dst.size - src.size)
         (copyRange src.data.slots 0 0 src.size dst.data.slots)⟩, src.size⟩,
     emit st (List.replicate (dst.size - src.size) Ev.dtor))
  else
    let m1 := copyRange src.data.slots 0 0 dst.size dst.data.slots
    let q := uCopyF fm src.data.slots dst.size dst.size (src.size - dst.size) 0 m1 st
    match q.1 with
    | none => (Except.error ⟨⟨dst.data.blk, m1⟩, dst.size⟩, q.2)
    | some m2 => (Except.ok ⟨⟨dst.data.blk, m2⟩, src.size⟩, q.2)

/-- Instrumented `Vector(Vector&&)`: transfer the buffer handle and size,
leaving the source with a null buffer, zero capacity and `size_ = 0`.  No
event of any kind is emitted — no element is constructed or destroyed and no
block changes state. -/
def moveCtorI (src : IVec α) (st : St) : (IVec α × IVec α) × St :=
  ((⟨src.data, src.size⟩, ⟨⟨none, []⟩, 0⟩), st)

/-- Instrumented `operator=(Vector&&)`: `data_ = std::move(rhs.data_)`
overwrites the destination's buffer handle — without a `Deallocate` and
without destroying the destination's elements, exactly as `RawMemory`'s move
assignment is written — and `size_ = std::exchange(rhs.size_, 0)`.  No event
is emitted; in particular no `free` of the destination's old block ever
happens. -/
def moveAssignI (_dst src : IVec α) (st : St) : (IVec α × IVec α) × St :=
  ((⟨src.data, src.size⟩, ⟨⟨none, []⟩, 0⟩), st)

/-- `~Vector`: destroy the live elements, then `data_`'s destructor releases
the block. -/
def destroyI (v : IVec α) (st : St) : St :=
  freeRaw v.data (emit st (List.replicate v.size Ev.dtor))

/-- The instrumented vector owning block `b` and holding exactly the elements
`l` with no spare slot (`size_ == Capacity()`) — the shape on which a
positional insert triggers growth. -/
def fullIVec (b : Option Nat) (l : List α) : IVec α := ⟨⟨b, l.map some⟩, l.length⟩

/-- `true` on `alloc` events. -/
def isAllocEv : Ev → Bool
  | Ev.alloc _ => true
  | _ => false

/-- Number of raw-block allocations in a trace. -/
def allocCount (tr : List Ev) : Nat := (tr.filter isAllocEv).length

/-- The first construction attempt in the window `[c, c+n)` that the fault
model makes throw, as an offset into the window. -/
def firstFail (fm : Nat → Bool) : Nat → Nat → Option Nat
  | _c, 0 => none
  | c, n+1 => if fm c then some 0 else (firstFail fm (c+1) n).map (· + 1)

/-- Concrete run for the claim about `EmplaceBack`'s missing cleanup: a vector
holding one element (block id 0, capacity 1), `EmplaceBack` under a fault
model whose second element construction (the transfer of the old element)
throws. -/
def c1Run : Except (IVec Nat) (IVec Nat) × St :=
  emplaceBackI (fun n => n == 1) 9 ⟨⟨some 0, [some 7]⟩, 1⟩ ⟨0, 1, []⟩

/-- Concrete run for the resource claim: construct two one-element vectors,
move-assign the second over the first, destroy both; the trace collects every
allocation and deallocation. -/
def c2Trace : List Ev :=
  match sizedI noFail (0 : Nat) 1 ⟨0, 0, []⟩ with
  | (some v1, s1) =>
    match sizedI noFail (0 : Nat) 1 s1 with
    | (some v2, s2) =>
      let r := moveAssignI v1 v2 s2
      (destroyI r.1.2 (destroyI r.1.1 r.2)).tr
    | (none, s2) => s2.tr
  | (none, s1) => s1.tr

/-! ### Slot-level lemmas -/

theorem mread_set (m : Mem α) (i j : Nat) (x : Option α) :
    mread (m.set i x) j = if i = j ∧ i < m.length then x else mread m j := by
  by_cases hij : i = j
  · subst hij
    by_cases hi : i < m.length
    · simp [mread, List.getElem?_set, hi]
    · have hj : m[i]? = none := List.getElem?_eq_none (Nat.le_of_not_lt hi)
      simp [mread, List.getElem?_set, hi, hj]
  · simp [mread, List.getElem?_set, hij]

theorem mext {a b : Mem α} (hlen : a.length = b.length)
    (h : ∀ j, mread a j = mread b j) : a = b := by
  apply List.ext_getElem?
  intro j
  by_cases hj : j < a.length
  · have hj' : j < b.length := hlen ▸ hj
    have := h j
    rw [mread, mread, List.getElem?_eq_getElem hj, List.getElem?_eq_getElem hj'] at this
    rw [List.getElem?_eq_getElem hj, List.getElem?_eq_getElem hj']
    simpa using this
  · rw [List.getElem?_eq_none (Nat.le_of_not_lt hj),
        List.getElem?_eq_none (hlen ▸ Nat.le_of_not_lt hj)]

theorem mread_mapSome (l : List α) (j : Nat) : mread (l.map some) j = l[j]? := by
  by_cases hj : j < l.length
  · rw [mread, List.getElem?_map, List.getElem?_eq_getElem hj]
    simp
  · rw [mread, List.getElem?_map, List.getElem?_eq_none (Nat.le_of_not_lt hj)]
    simp

theorem canonSlots_length (l : List α) (k : Nat) :
    (canonSlots l k).length = l.length + k := by
  simp [canonSlots]

theorem mread_canonSlots (l : List α) (k : Nat) (j : Nat) :
    mread (canonSlots l k) j = l[j]? := by
  by_cases hj : j < l.length
  · rw [canonSlots, mread, List.getElem?_append]
    simp only [List.length_map, hj, if_pos]
    rw [List.getElem?_map, List.getElem?_eq_getElem hj]
    simp
  · rw [canonSlots, mread, List.getElem?_append]
    simp only [List.length_map, hj, if_neg, List.getElem?_replicate]
    rw [List.getElem?_eq_none (Nat.le_of_not_lt hj)]
    by_cases hk : j - l.length < k <;> simp [hk]

theorem copyRange_length (src : Mem α) (s d n : Nat) (dst : Mem α) :
    (copyRange src s d n dst).length = dst.length := by
  induction n generalizing s d dst with
  | zero => rfl
  | succ n ih => rw [copyRange, ih, List.length_set]

theorem mread_copyRange (src : Mem α) (s d n : Nat) (dst : Mem α) (j : Nat) :
    mread (copyRange src s d n dst) j =
      if d ≤ j ∧ j < d + n ∧ j < dst.length then mread src (s + (j - d))
      else mread dst j := by
  induction n generalizing s d dst with
  | zero =>
    rw [copyRange, if_neg]
    omega
  | succ n ih =>
    rw [copyRange, ih (s+1) (d+1) (dst.set d (mread src s)), List.length_set]
    by_cases hj : j = d
    · by_cases hd : d < dst.length
      · rw [if_neg (by omega), mread_set, if_pos ⟨by omega, hd⟩, if_pos (by omega)]
        congr 1
        omega
      · rw [if_neg (by omega), mread_set, if_neg (by omega), if_neg (by omega)]
    · by_cases hin : d + 1 ≤ j ∧ j < d + 1 + n ∧ j < dst.length
      · rw [if_pos hin, if_pos (by omega)]
        congr 1
        omega
      · rw [if_neg hin, mread_set, if_neg (by omega), if_neg (by omega)]

theorem fillRange_length (x : α) (d n : Nat) (m : Mem α) :
    (fillRange x d n m).length = m.length := by
  induction n generalizing d m with
  | zero => rfl
  | succ n ih => rw [fillRange, ih, List.length_set]

theorem mread_fillRange (x : α) (d n : Nat) (m : Mem α) (j : Nat) :
    mread (fillRange x d n m) j =
      if d ≤ j ∧ j < d + n ∧ j < m.length then some x else mread m j := by
  induction n generalizing d m with
  | zero =>
    rw [fillRange, if_neg]
    omega
  | succ n ih =>
    rw [fillRange, ih (d+1) (m.set d (some x)), List.length_set]
    by_cases hj : j = d
    · by_cases hd : d < m.length
      · rw [if_neg (by omega), mread_set, if_pos ⟨by omega, hd⟩, if_pos (by omega)]
      · rw [if_neg (by omega), mread_set, if_neg (by omega), if_neg (by omega)]
    · by_cases hin : d + 1 ≤ j ∧ j < d + 1 + n ∧ j < m.length
      · rw [if_pos hin, if_pos (by omega)]
      · rw [if_neg hin, mread_set, if_neg (by omega), if_neg (by omega)]

theorem clearRange_length (d n : Nat) (m : Mem α) :
    (clearRange d n m : Mem α).length = m.length := by
  induction n generalizing d m with
  | zero => rfl
  | succ n ih => rw [clearRange, ih, List.length_set]

theorem mread_clearRange (d n : Nat) (m : Mem α) (j : Nat) :
    mread (clearRange d n m) j =
      if d ≤ j ∧ j < d + n then none else mread m j := by
  induction n generalizing d m with
  | zero =>
    rw [clearRange, if_neg]
    omega
  | succ n ih =>
    rw [clearRange, ih (d+1) (m.set d none)]
    by_cases hj : j = d
    · by_cases hd : d < m.length
      · rw [if_neg (by omega), mread_set, if_pos ⟨by omega, hd⟩, if_pos (by omega)]
      · rw [if_neg (by omega), mread_set, if_neg (by omega), if_pos (by omega)]
        have hnone : m[j]? = none := List.getElem?_eq_none (by omega)
        simp [mread, hnone]
    · by_cases hin : d + 1 ≤ j ∧ j < d + 1 + n
      · rw [if_pos hin, if_pos (by omega)]
      · rw [if_neg hin, mread_set, if_neg (by omega), if_neg (by omega)]

theorem moveRangeFwd_length (d s n : Nat) (m : Mem α) :
    (moveRangeFwd d s n m : Mem α).length = m.length := by
  induction n generalizing d s m with
  | zero => rfl
  | succ n ih => rw [moveRangeFwd, ih, List.length_set]

theorem mread_moveRangeFwd (d s n : Nat) (m : Mem α) (j : Nat) (hds : d < s) :
    mread (moveRangeFwd d s n m) j =
      if d ≤ j ∧ j < d + n ∧ j < m.length then mread m (s + (j - d))
      else mread m j := by
  induction n generalizing d s m with
  | zero =>
    rw [moveRangeFwd, if_neg]
    omega
  | succ n ih =>
    rw [moveRangeFwd, ih (d+1) (s+1) (m.set d (mread m s)) (by omega), List.length_set]
    by_cases hj : j = d
    · by_cases hd : d < m.length
      · rw [if_neg (by omega), mread_set, if_pos ⟨by omega, hd⟩, if_pos (by omega)]
        congr 1
        omega
      · rw [if_neg (by omega), mread_set, if_neg (by omega), if_neg (by omega)]
    · by_cases hin : d + 1 ≤ j ∧ j < d + 1 + n ∧ j < m.length
      · rw [if_pos hin, mread_set, if_neg (by omega), if_pos (by omega)]
        congr 1
        omega
      · rw [if_neg hin, mread_set, if_neg (by omega), if_neg (by omega)]

theorem moveRangeBwd_length (dl sl n : Nat) (m : Mem α) :
    (moveRangeBwd dl sl n m : Mem α).length = m.length := by
  induction n generalizing dl sl m with
  | zero => rfl
  | succ n ih => rw [moveRangeBwd, ih, List.length_set]

theorem mread_moveRangeBwd (dl sl n : Nat) (m : Mem α) (j : Nat)
    (hn : n ≤ sl) (hsd : sl < dl) :
    mread (moveRangeBwd dl sl n m) j =
      if dl - n ≤ j ∧ j < dl ∧ j < m.length then mread m (j - (dl - sl))
      else mread m j := by
  induction n generalizing dl sl m with
  | zero =>
    rw [moveRangeBwd, if_neg]
    omega
  | succ n ih =>
    rw [moveRangeBwd,
        ih (dl-1) (sl-1) (m.set (dl-1) (mread m (sl-1))) (by omega) (by omega),
        List.length_set]
    by_cases hj : j = dl - 1
    · by_cases hd : dl - 1 < m.length
      · rw [if_neg (by omega), mread_set, if_pos ⟨by omega, hd⟩, if_pos (by omega)]
        congr 1
        omega
      · rw [if_neg (by omega), mread_set, if_neg (by omega), if_neg (by omega)]
    · by_cases hin : dl - 1 - n ≤ j ∧ j < dl - 1 ∧ j < m.length
      · rw [if_pos hin, mread_set, if_neg (by omega), if_pos (by omega)]
        congr 1
        omega
      · rw [if_neg hin, mread_set, if_neg (by omega), if_neg (by omega)]

/-! ### Canonical vectors and list-index lemmas -/

@[simp] theorem canon_size (l : List α) (k : Nat) : (canon l k).size = l.length := rfl

@[simp] theorem canon_data (l : List α) (k : Nat) : (canon l k).data = canonSlots l k := rfl

theorem mread_replicate_none (k j : Nat) :
    mread (List.replicate k (none : Option α)) j = none := by
  by_cases hj : j < k <;> simp [mread, List.getElem?_replicate, hj]

theorem getp_singleton (x : α) (i : Nat) :
    ([x] : List α)[i]? = if i = 0 then some x else none := by
  match i with
  | 0 => rfl
  | i+1 => rfl

theorem getp_concat (l : List α) (x : α) (j : Nat) :
    (l ++ [x])[j]? = if j < l.length then l[j]?
      else if j = l.length then some x else none := by
  rw [List.getElem?_append]
  by_cases hj : j < l.length
  · simp [hj]
  · rw [if_neg hj, if_neg hj, getp_singleton]
    by_cases he : j = l.length
    · simp [he]
    · rw [if_neg (by omega), if_neg he]

theorem length_insertAtL (l : List α) (p : Nat) (x : α) (hp : p ≤ l.length) :
    (insertAtL l p x).length = l.length + 1 := by
  simp [insertAtL]
  omega

theorem getp_insertAtL (l : List α) (p : Nat) (x : α) (j : Nat) (hp : p ≤ l.length) :
    (insertAtL l p x)[j]? =
      if j < p then l[j]? else if j = p then some x else l[j-1]? := by
  rw [insertAtL, List.getElem?_append]
  have hlt : (l.take p).length = p := by simp; omega
  rw [hlt]
  by_cases hj : j < p
  · rw [if_pos hj, if_pos hj, List.getElem?_take, if_pos hj]
  · rw [if_neg hj, if_neg hj]
    by_cases he : j = p
    · rw [if_pos he, show j - p = 0 by omega]
      simp
    · rw [if_neg he, show j - p = (j - p - 1) + 1 by omega, List.getElem?_cons_succ,
          List.getElem?_drop]
      congr 1
      omega

theorem length_eraseAtL (l : List α) (p : Nat) (hp : p < l.length) :
    (eraseAtL l p).length = l.length - 1 := by
  simp [eraseAtL]
  omega

theorem getp_eraseAtL (l : List α) (p : Nat) (j : Nat) (hp : p < l.length) :
    (eraseAtL l p)[j]? = if j < p then l[j]? else l[j+1]? := by
  rw [eraseAtL, List.getElem?_append]
  have hlt : (l.take p).length = p := by simp; omega
  rw [hlt]
  by_cases hj : j < p
  · rw [if_pos hj, if_pos hj, List.getElem?_take, if_pos hj]
  · rw [if_neg hj, if_neg hj, List.getElem?_drop]
    congr 1
    omega

theorem elems_canon (l : List α) (k : Nat) : (canon l k).elems = l := by
  induction l with
  | nil => simp [canon, canonSlots, Vector.elems]
  | cons a t ih =>
    have : canonSlots (a :: t) k = some a :: canonSlots t k := by
      simp [canonSlots]
    simp only [Vector.elems, canon_data, canon_size, this, List.length_cons,
      List.take_succ_cons, List.filterMap_cons]
    simp only [Vector.elems, canon_data, canon_size] at ih
    simp [ih]

theorem vecExt {v w : Vector α} (hsize : v.size = w.size)
    (hlen : v.data.length = w.data.length)
    (h : ∀ j, mread v.data j = mread w.data j) : v = w := by
  obtain ⟨vd, vs⟩ := v
  obtain ⟨wd, ws⟩ := w
  exact congrArg₂ Vector.mk (mext hlen h) hsize

/-! ### Characterization of the operations on well-formed vectors -/

theorem pushBack_grow (l : List α) (x : α) :
    (canon l 0).PushBack x =
      canon (l ++ [x]) ((if l.length = 0 then 1 else l.length * 2) - (l.length + 1)) := by
  have hcap : l.length + 1 ≤ (if l.length = 0 then 1 else l.length * 2) := by
    by_cases h0 : l.length = 0
    · simp [h0]
    · simp [h0]
      omega
  have hc : (canon l 0).size = (canon l 0).data.length := by
    simp [canonSlots_length]
  rw [Vector.PushBack, if_pos hc]
  refine vecExt (by simp) ?_ ?_
  · rw [canon_size, copyRange_length, List.length_set, List.length_replicate,
        canon_data, canonSlots_length, List.length_append]
    simp
    omega
  · intro j
    simp only [canon_size, canon_data, mread_copyRange, mread_canonSlots,
      List.length_set, List.length_replicate, getp_concat, Nat.zero_add,
      Nat.sub_zero, Nat.add_zero, Nat.zero_le, true_and]
    by_cases h1 : j < l.length
    · rw [if_pos ⟨h1, by omega⟩, if_pos h1]
    · rw [if_neg (by omega), if_neg h1, mread_set, List.length_replicate]
      by_cases h2 : j = l.length
      · rw [if_pos ⟨by omega, by omega⟩, if_pos h2]
      · rw [if_neg (by omega), if_neg h2, mread_replicate_none]

theorem pushBack_fit (l : List α) (k : Nat) (x : α) :
    (canon l (k+1)).PushBack x = canon (l ++ [x]) k := by
  have hc : ¬ (canon l (k+1)).size = (canon l (k+1)).data.length := by
    simp [canonSlots_length]
  rw [Vector.PushBack, if_neg hc]
  refine vecExt (by simp) ?_ ?_
  · rw [canon_size, List.length_set, canon_data, canon_data, canonSlots_length,
        canonSlots_length, List.length_append]
    simp
    omega
  · intro j
    rw [canon_size, canon_data, canon_data, mread_set, canonSlots_length,
        mread_canonSlots, mread_canonSlots, getp_concat]
    by_cases h2 : j = l.length
    · rw [if_pos ⟨h2.symm, by omega⟩, if_neg (by omega), if_pos h2]
    · rw [if_neg (by omega)]
      by_cases h1 : j < l.length
      · rw [if_pos h1]
      · rw [if_neg h1, if_neg h2, List.getElem?_eq_none (by omega)]

theorem vempty_canon : (vempty : Vector α) = canon [] 0 := rfl
theorem popBack_canon (l : List α) (k : Nat) (hl : 0 < l.length) :
    (canon l k).PopBack = canon (l.take (l.length - 1)) (k + 1) := by
  rw [Vector.PopBack]
  refine vecExt (by simp) ?_ ?_
  · rw [canon_size, List.length_set, canon_data, canon_data, canonSlots_length,
        canonSlots_length, List.length_take]
    omega
  · intro j
    simp only [canon_size, canon_data, mread_set, canonSlots_length,
      mread_canonSlots, List.getElem?_take]
    by_cases h1 : j = l.length - 1
    · rw [if_pos ⟨by omega, by omega⟩, if_neg (by omega)]
    · rw [if_neg (by omega)]
      by_cases h2 : j < l.length - 1
      · rw [if_pos h2]
      · rw [if_neg h2, List.getElem?_eq_none (by omega)]

theorem erase_canon (l : List α) (k : Nat) (p : Nat) (hp : p < l.length) :
    (canon l k).Erase p = canon (eraseAtL l p) (k + 1) := by
  rw [Vector.Erase]
  refine vecExt (by simp [length_eraseAtL l p hp]) ?_ ?_
  · rw [canon_size, List.length_set, moveRangeFwd_length, canon_data, canon_data,
        canonSlots_length, canonSlots_length, length_eraseAtL l p hp]
    omega
  · intro j
    have hfwd : ∀ (m : Mem α) (i : Nat),
        mread (moveRangeFwd p (p+1) (l.length - (p+1)) m) i =
        if p ≤ i ∧ i < p + (l.length - (p+1)) ∧ i < m.length then mread m (i+1)
        else mread m i := by
      intro m i
      rw [mread_moveRangeFwd p (p+1) (l.length - (p+1)) m i (by omega)]
      by_cases hc : p ≤ i ∧ i < p + (l.length - (p+1)) ∧ i < m.length
      · rw [if_pos hc, if_pos hc]
        congr 1
        omega
      · rw [if_neg hc, if_neg hc]
    simp only [canon_size, canon_data, mread_set, canonSlots_length, hfwd,
      moveRangeFwd_length, mread_canonSlots]
    rw [getp_eraseAtL l p j hp]
    by_cases h1 : j = l.length - 1
    · rw [if_pos ⟨by omega, by omega⟩, if_neg (by omega),
          List.getElem?_eq_none (by omega)]
    · rw [if_neg (by omega)]
      by_cases h2 : p ≤ j ∧ j < p + (l.length - (p + 1)) ∧ j < l.length + k
      · rw [if_pos h2, if_neg (by omega)]
      · rw [if_neg h2]
        by_cases h3 : j < p
        · rw [if_pos h3]
        · rw [if_neg h3, List.getElem?_eq_none (by omega),
              List.getElem?_eq_none (by omega)]

theorem emplace_fit (l : List α) (k : Nat) (p : Nat) (x : α) (hp : p < l.length) :
    (canon l (k+1)).Emplace p x = canon (insertAtL l p x) k := by
  have hne : ¬ p = (canon l (k+1)).size := by simp; omega
  have hcap : ¬ (canon l (k+1)).size = (canon l (k+1)).data.length := by
    simp [canonSlots_length]
  rw [Vector.Emplace, if_neg hne, if_neg hcap]
  have hbwd : ∀ (m : Mem α) (i : Nat),
      mread (moveRangeBwd l.length (l.length - 1) (l.length - 1 - p) m) i =
      if p + 1 ≤ i ∧ i < l.length ∧ i < m.length then mread m (i - 1)
      else mread m i := by
    intro m i
    rw [mread_moveRangeBwd l.length (l.length - 1) (l.length - 1 - p) m i
          (by omega) (by omega),
        show l.length - (l.length - 1 - p) = p + 1 by omega,
        show l.length - (l.length - 1) = 1 by omega]
  refine vecExt (by simp [length_insertAtL l p x (by omega)]) ?_ ?_
  · rw [canon_size, List.length_set, moveRangeBwd_length, List.length_set,
        canon_data, canon_data, canonSlots_length, canonSlots_length,
        length_insertAtL l p x (by omega)]
    omega
  · intro j
    simp only [canon_size, canon_data, mread_set, canonSlots_length, hbwd,
      moveRangeBwd_length, List.length_set, mread_canonSlots]
    rw [getp_insertAtL l p x j (by omega)]
    by_cases h1 : j = p
    · rw [if_pos ⟨h1.symm, by omega⟩, if_neg (by omega), if_pos h1]
    · rw [if_neg (by omega)]
      by_cases h2 : p + 1 ≤ j ∧ j < l.length ∧ j < l.length + (k + 1)
      · rw [if_pos h2, if_neg (by omega), if_neg (by omega), if_neg (by omega)]
      · rw [if_neg h2]
        by_cases h3 : j = l.length
        · rw [if_pos ⟨by omega, by omega⟩, if_neg (by omega), if_neg (by omega)]
          congr 1
          omega
        · rw [if_neg (by omega)]
          by_cases h4 : j < p
          · rw [if_pos h4]
          · rw [if_neg h4, if_neg (by omega), List.getElem?_eq_none (by omega),
                List.getElem?_eq_none (by omega)]

theorem emplace_grow (l : List α) (p : Nat) (x : α) (hp : p < l.length) :
    (canon l 0).Emplace p x =
      canon (insertAtL l p x) (l.length * 2 - (l.length + 1)) := by
  have hne : ¬ p = (canon l 0).size := by simp; omega
  have hcap : (canon l 0).size = (canon l 0).data.length := by
    simp [canonSlots_length]
  rw [Vector.Emplace, if_neg hne, if_pos hcap]
  have hnz : ¬ (canon l 0).size = 0 := by rw [canon_size]; omega
  rw [if_neg hnz]
  refine vecExt (by simp [length_insertAtL l p x (by omega)]) ?_ ?_
  · rw [canon_size, copyRange_length, copyRange_length, List.length_set,
        List.length_replicate, canon_data, canonSlots_length,
        length_insertAtL l p x (by omega)]
    omega
  · intro j
    simp only [canon_size, canon_data, mread_copyRange, copyRange_length,
      List.length_set, List.length_replicate, mread_set, mread_canonSlots,
      mread_replicate_none, Nat.zero_add, Nat.sub_zero, Nat.zero_le, true_and]
    rw [getp_insertAtL l p x j (by omega)]
    by_cases h1 : p + 1 ≤ j ∧ j < p + 1 + (l.length - p) ∧ j < l.length * 2
    · rw [if_pos h1, if_neg (by omega), if_neg (by omega)]
      congr 1
      omega
    · rw [if_neg h1]
      by_cases h2 : j < p
      · rw [if_pos ⟨h2, by omega⟩, if_pos h2]
      · rw [if_neg (by omega)]
        by_cases h3 : j = p
        · rw [if_pos ⟨by omega, by omega⟩, if_neg (by omega), if_pos h3]
        · rw [if_neg (by omega), if_neg (by omega), if_neg h3,
              List.getElem?_eq_none (by omega)]

theorem copyCtor_canon (l : List α) (k : Nat) :
    (canon l k).copyCtor = canon l 0 := by
  rw [Vector.copyCtor]
  refine vecExt (by simp) ?_ ?_
  · rw [canon_size, copyRange_length, List.length_replicate, canon_data,
        canonSlots_length]
    omega
  · intro j
    simp only [canon_size, canon_data, mread_copyRange, List.length_replicate,
      mread_canonSlots, mread_replicate_none, Nat.zero_add, Nat.sub_zero,
      Nat.zero_le, true_and]
    by_cases h1 : j < l.length
    · rw [if_pos ⟨h1, h1⟩]
    · rw [if_neg (by omega), List.getElem?_eq_none (by omega)]

theorem reserve_noop (l : List α) (k : Nat) (n : Nat) (h : n ≤ l.length + k) :
    (canon l k).Reserve n = canon l k := by
  rw [Vector.Reserve, if_pos]
  rw [canon_data, canonSlots_length]
  exact h

theorem reserve_grow (l : List α) (k : Nat) (n : Nat) (h : l.length + k < n) :
    (canon l k).Reserve n = canon l (n - l.length) := by
  rw [Vector.Reserve, if_neg (by rw [canon_data, canonSlots_length]; omega)]
  refine vecExt (by simp) ?_ ?_
  · rw [canon_size, copyRange_length, List.length_replicate, canon_data,
        canonSlots_length]
    omega
  · intro j
    simp only [canon_size, canon_data, mread_copyRange, List.length_replicate,
      mread_canonSlots, mread_replicate_none, Nat.zero_add, Nat.sub_zero,
      Nat.zero_le, true_and]
    by_cases h1 : j < l.length
    · rw [if_pos ⟨h1, by omega⟩]
    · rw [if_neg (by omega), List.getElem?_eq_none (by omega)]

theorem resize_shrink (d : α) (l : List α) (k : Nat) (n : Nat) (h : n < l.length) :
    Vector.Resize d (canon l k) n = canon (l.take n) (k + (l.length - n)) := by
  simp only [Vector.Resize]
  rw [if_pos (by rw [canon_size]; omega)]
  refine vecExt (by simp; omega) ?_ ?_
  · rw [clearRange_length, canon_data, canon_data, canonSlots_length,
        canonSlots_length, List.length_take]
    omega
  · intro j
    simp only [canon_size, canon_data, mread_clearRange, mread_canonSlots,
      List.getElem?_take]
    by_cases h1 : n ≤ j ∧ j < n + (l.length - n)
    · rw [if_pos h1, if_neg (by omega)]
    · rw [if_neg h1]
      by_cases h2 : j < n
      · rw [if_pos h2]
      · rw [if_neg h2, List.getElem?_eq_none (by omega)]

theorem resize_grow (d : α) (l : List α) (k : Nat) (n : Nat) (h : l.length ≤ n) :
    Vector.Resize d (canon l k) n =
      canon (l ++ List.replicate (n - l.length) d) (l.length + k - n) := by
  simp only [Vector.Resize]
  rw [if_neg (by rw [canon_size]; omega)]
  by_cases hfit : n ≤ l.length + k
  · rw [reserve_noop l k n hfit]
    refine vecExt (by simp; omega) ?_ ?_
    · rw [canon_size, fillRange_length, canon_data, canon_data,
          canonSlots_length, canonSlots_length]
      simp
      omega
    · intro j
      simp only [canon_size, canon_data, mread_fillRange, canonSlots_length,
        mread_canonSlots, List.getElem?_append]
      by_cases h1 : l.length ≤ j ∧ j < l.length + (n - l.length) ∧ j < l.length + k
      · rw [if_pos h1, if_neg (by omega), List.getElem?_replicate,
            if_pos (by omega)]
      · rw [if_neg h1]
        by_cases h2 : j < l.length
        · rw [if_pos h2]
        · rw [if_neg h2, List.getElem?_eq_none (by omega),
              List.getElem?_replicate, if_neg (by omega)]
  · rw [reserve_grow l k n (by omega)]
    refine vecExt (by simp; omega) ?_ ?_
    · rw [canon_size, fillRange_length, canon_data, canon_data,
          canonSlots_length, canonSlots_length]
      simp
      omega
    · intro j
      simp only [canon_size, canon_data, mread_fillRange, canonSlots_length,
        mread_canonSlots, List.getElem?_append]
      by_cases h1 : l.length ≤ j ∧ j < l.length + (n - l.length) ∧
          j < l.length + (n - l.length)
      · rw [if_pos h1, if_neg (by omega), List.getElem?_replicate,
            if_pos (by omega)]
      · rw [if_neg h1]
        by_cases h2 : j < l.length
        · rw [if_pos h2]
        · rw [if_neg h2, List.getElem?_eq_none (by omega),
              List.getElem?_replicate, if_neg (by omega)]

theorem mkSized_canon (d : α) (n : Nat) :
    (mkSized d n : Vector α) = canon (List.replicate n d) 0 := by
  rw [mkSized]
  refine vecExt (by simp) ?_ ?_
  · rw [fillRange_length, List.length_replicate, canon_data, canonSlots_length]
    simp
  · intro j
    simp only [canon_data, mread_fillRange, List.length_replicate,
      mread_replicate_none, mread_canonSlots, List.getElem?_replicate,
      Nat.zero_add, Nat.zero_le, true_and]
    by_cases h1 : j < n
    · rw [if_pos ⟨h1, h1⟩, if_pos h1]
    · rw [if_neg (by omega), if_neg h1]

theorem copyAssign_canon (lD lS : List α) (kD kS : Nat) :
    Vector.copyAssign false (canon lD kD) (canon lS kS) =
      canon lS (if lD.length + kD < lS.length then 0
                else lD.length + kD - lS.length) := by
  rw [Vector.copyAssign, if_neg (by simp)]
  by_cases htmp : (canon lD kD).data.length < (canon lS kS).size
  · have htmp' : lD.length + kD < lS.length := by
      rw [canon_data, canonSlots_length, canon_size] at htmp
      exact htmp
    rw [if_pos htmp, copyCtor_canon, if_pos htmp']
  · have htmp' : ¬ lD.length + kD < lS.length := by
      rw [canon_data, canonSlots_length, canon_size] at htmp
      exact htmp
    rw [if_neg htmp, if_neg htmp']
    by_cases hsh : (canon lS kS).size < (canon lD kD).size
    · rw [if_pos hsh]
      rw [canon_size, canon_size] at hsh
      refine vecExt (by simp) ?_ ?_
      · rw [canon_size, clearRange_length, copyRange_length, canon_data,
            canon_data, canonSlots_length, canonSlots_length]
        omega
      · intro j
        simp only [canon_size, canon_data, mread_clearRange, mread_copyRange,
          copyRange_length, canonSlots_length, mread_canonSlots, Nat.zero_add,
          Nat.sub_zero, Nat.zero_le, true_and]
        by_cases h1 : lS.length ≤ j ∧ j < lS.length + (lD.length - lS.length)
        · rw [if_pos h1, List.getElem?_eq_none (by omega)]
        · rw [if_neg h1]
          by_cases h2 : j < lS.length
          · rw [if_pos ⟨h2, by omega⟩]
          · rw [if_neg (by omega), List.getElem?_eq_none (by omega),
                List.getElem?_eq_none (by omega)]
    · rw [if_neg hsh]
      rw [canon_size, canon_size] at hsh
      refine vecExt (by simp) ?_ ?_
      · rw [canon_size, copyRange_length, copyRange_length, canon_data,
            canon_data, canonSlots_length, canonSlots_length]
        omega
      · intro j
        simp only [canon_size, canon_data, mread_copyRange, copyRange_length,
          canonSlots_length, mread_canonSlots, Nat.zero_add, Nat.sub_zero,
          Nat.zero_le, true_and]
        by_cases h1 : lD.length ≤ j ∧ j < lD.length + (lS.length - lD.length) ∧
            j < lD.length + kD
        · rw [if_pos h1]
          congr 1
          omega
        · rw [if_neg h1]
          by_cases h2 : j < lD.length
          · rw [if_pos ⟨h2, by omega⟩]
          · rw [if_neg (by omega), List.getElem?_eq_none (by omega),
                List.getElem?_eq_none (by omega)]
/-- Every reachable state is in canonical form: a prefix of constructed slots
holding the elements, followed by uninitialized slots. -/
theorem reachable_canon (d : α) (v : Vector α) (h : Reachable d v) :
    ∃ l k, v = canon l k := by
  induction h with
  | empty => exact ⟨[], 0, rfl⟩
  | sized n => exact ⟨List.replicate n d, 0, mkSized_canon d n⟩
  | copied w hr ih =>
    obtain ⟨l, k, rfl⟩ := ih
    exact ⟨l, 0, copyCtor_canon l k⟩
  | push w x hr ih =>
    obtain ⟨l, k, rfl⟩ := ih
    match k with
    | 0 => exact ⟨l ++ [x], _, pushBack_grow l x⟩
    | k+1 => exact ⟨l ++ [x], k, pushBack_fit l k x⟩
  | pop w hr hs ih =>
    obtain ⟨l, k, rfl⟩ := ih
    rw [canon_size] at hs
    exact ⟨l.take (l.length - 1), k+1, popBack_canon l k hs⟩
  | emplace w pos x hr hpos ih =>
    obtain ⟨l, k, rfl⟩ := ih
    rw [canon_size] at hpos
    by_cases hp : pos = l.length
    · have hdel : (canon l k).Emplace pos x = (canon l k).PushBack x := by
        rw [Vector.Emplace, if_pos (by rw [canon_size]; exact hp)]
      rw [hdel]
      match k with
      | 0 => exact ⟨l ++ [x], _, pushBack_grow l x⟩
      | k+1 => exact ⟨l ++ [x], k, pushBack_fit l k x⟩
    · have hlt : pos < l.length := by omega
      match k with
      | 0 => exact ⟨insertAtL l pos x, _, emplace_grow l pos x hlt⟩
      | k+1 => exact ⟨insertAtL l pos x, k, emplace_fit l k pos x hlt⟩
  | erase w pos hr hpos ih =>
    obtain ⟨l, k, rfl⟩ := ih
    rw [canon_size] at hpos
    exact ⟨eraseAtL l pos, k+1, erase_canon l k pos hpos⟩
  | reserve w n hr ih =>
    obtain ⟨l, k, rfl⟩ := ih
    by_cases hn : n ≤ l.length + k
    · exact ⟨l, k, reserve_noop l k n hn⟩
    · exact ⟨l, n - l.length, reserve_grow l k n (by omega)⟩
  | resize w n hr ih =>
    obtain ⟨l, k, rfl⟩ := ih
    by_cases hn : n < l.length
    · exact ⟨l.take n, k + (l.length - n), resize_shrink d l k n hn⟩
    · exact ⟨l ++ List.replicate (n - l.length) d, l.length + k - n,
        resize_grow d l k n (by omega)⟩
  | assign a b h1 h2 ih1 ih2 =>
    obtain ⟨lD, kD, rfl⟩ := ih1
    obtain ⟨lS, kS, rfl⟩ := ih2
    exact ⟨lS, _, copyAssign_canon lD lS kD kS⟩

/-! ### Lemmas about the instrumented primitives -/

theorem firstFail_noFail (c n : Nat) : firstFail noFail c n = none := by
  induction n generalizing c with
  | zero => rfl
  | succ n ih => rw [firstFail]; simp [noFail, ih]

theorem uCopyF_ok (fm : Nat → Bool) (src : Mem α) (s d n done : Nat) (dst : Mem α)
    (st : St) (h : firstFail fm st.cnt n = none) :
    uCopyF fm src s d n done dst st =
      (some (copyRange src s d n dst),
       ⟨st.cnt + n, st.nextId, st.tr ++ List.replicate n Ev.ctor⟩) := by
  induction n generalizing s d done dst st with
  | zero =>
    rw [uCopyF, copyRange]
    simp
  | succ n ih =>
    rw [firstFail] at h
    by_cases hf : fm st.cnt
    · rw [if_pos hf] at h
      exact absurd h (by simp)
    · rw [if_neg hf] at h
      have h2 : firstFail fm (st.cnt + 1) n = none := by
        cases hx : firstFail fm (st.cnt + 1) n with
        | none => rfl
        | some i => rw [hx] at h; simp at h
      rw [uCopyF, if_neg hf, copyRange,
          ih (s+1) (d+1) (done+1) (dst.set d (mread src s)) (emit (bump st) [Ev.ctor]) h2]
      simp [emit, bump, List.replicate_succ, List.append_assoc]
      omega

theorem uCopyF_fail (fm : Nat → Bool) (src : Mem α) (s d n done : Nat) (dst : Mem α)
    (st : St) (i : Nat) (h : firstFail fm st.cnt n = some i) :
    uCopyF fm src s d n done dst st =
      (none, ⟨st.cnt + i + 1, st.nextId,
              st.tr ++ List.replicate i Ev.ctor ++ List.replicate (done + i) Ev.dtor⟩) := by
  induction n generalizing s d done dst st i with
  | zero => simp [firstFail] at h
  | succ n ih =>
    rw [firstFail] at h
    by_cases hf : fm st.cnt
    · rw [if_pos hf] at h
      have hi : i = 0 := by
        have := h
        simp at this
        omega
      subst hi
      rw [uCopyF, if_pos hf]
      simp [emit, bump]
    · rw [if_neg hf] at h
      cases hx : firstFail fm (st.cnt + 1) n with
      | none => rw [hx] at h; simp at h
      | some i' =>
        rw [hx] at h
        simp at h
        rw [uCopyF, if_neg hf,
            ih (s+1) (d+1) (done+1) (dst.set d (mread src s))
              (emit (bump st) [Ev.ctor]) i' hx]
        simp only [emit, bump]
        have hcnt : st.cnt + 1 + i' + 1 = st.cnt + i + 1 := by omega
        have hdn : done + 1 + i' = done + i := by omega
        rw [hcnt, hdn]
        have hrep : List.replicate i Ev.ctor = Ev.ctor :: List.replicate i' Ev.ctor := by
          rw [show i = i' + 1 by omega, List.replicate_succ]
        rw [hrep]
        simp [List.append_assoc]

theorem allocCount_append (a b : List Ev) :
    allocCount (a ++ b) = allocCount a + allocCount b := by
  simp [allocCount, List.filter_append]

theorem allocCount_replicate (n : Nat) (e : Ev) (h : isAllocEv e = false) :
    allocCount (List.replicate n e) = 0 := by
  induction n with
  | zero => rfl
  | succ n ih =>
    rw [List.replicate_succ]
    simp only [allocCount, List.filter_cons, h]
    exact ih

theorem allocCount_alloc (i : Nat) : allocCount [Ev.alloc i] = 1 := rfl

theorem allocCount_ctor : allocCount [Ev.ctor] = 0 := rfl

theorem allocCount_dtor : allocCount [Ev.dtor] = 0 := rfl

/-! ### Claim theorems -/

/-- C5: every reachable state of the container (any constructor followed by any
sequence of public operations, each within its documented precondition)
satisfies `0 ≤ length ≤ capacity`, slots `[0, length)` hold constructed
values, and slots `[length, capacity)` are uninitialized. -/
theorem C5_invariant (d : α) (v : Vector α) (h : Reachable d v) :
    v.size ≤ v.cap ∧
    (∀ i, i < v.size → (mread v.data i).isSome = true) ∧
    (∀ i, v.size ≤ i → i < v.cap → mread v.data i = none) := by
  obtain ⟨l, k, rfl⟩ := reachable_canon d v h
  refine ⟨?_, ?_, ?_⟩
  · rw [canon_size, Vector.cap, canon_data, canonSlots_length]
    omega
  · intro i hi
    rw [canon_size] at hi
    rw [canon_data, mread_canonSlots, List.getElem?_eq_getElem hi]
    rfl
  · intro i hi _
    rw [canon_size] at hi
    rw [canon_data, mread_canonSlots]
    exact List.getElem?_eq_none hi

/-- Witness for C5 at the concrete reachable state built by two `PushBack`s. -/
theorem C5_invariant_witness :
    Reachable (0 : Nat) ((vempty.PushBack 1).PushBack 2) ∧
    (((vempty.PushBack 1).PushBack 2 : Vector Nat).size ≤
        ((vempty.PushBack 1).PushBack 2 : Vector Nat).cap ∧
     (∀ i, i < ((vempty.PushBack 1).PushBack 2 : Vector Nat).size →
        (mread ((vempty.PushBack 1).PushBack 2 : Vector Nat).data i).isSome = true) ∧
     (∀ i, ((vempty.PushBack 1).PushBack 2 : Vector Nat).size ≤ i →
        i < ((vempty.PushBack 1).PushBack 2 : Vector Nat).cap →
        mread ((vempty.PushBack 1).PushBack 2 : Vector Nat).data i = none)) := by
  have hr : Reachable (0 : Nat) ((vempty.PushBack 1).PushBack 2) :=
    Reachable.push _ _ (Reachable.push _ _ Reachable.empty)
  exact ⟨hr, C5_invariant 0 _ hr⟩

/-- C8: `Erase` at a position `p < length` removes exactly the element at `p`
(move-assigning the elements after it one slot left and destroying the
now-duplicate final slot), decrements the length by one, preserves the
relative order of the other elements, and leaves the capacity unchanged. -/
theorem C8_erase_correct (l : List α) (k p : Nat) (hp : p < l.length) :
    (canon l k).Erase p = canon (eraseAtL l p) (k + 1) ∧
    ((canon l k).Erase p).elems = eraseAtL l p ∧
    ((canon l k).Erase p).size = l.length - 1 ∧
    ((canon l k).Erase p).cap = (canon l k).cap := by
  have h := erase_canon l k p hp
  refine ⟨h, ?_, ?_, ?_⟩
  · rw [h, elems_canon]
  · rw [h, canon_size, length_eraseAtL l p hp]
  · rw [h, Vector.cap, Vector.cap, canon_data, canon_data, canonSlots_length,
        canonSlots_length, length_eraseAtL l p hp]
    omega

/-- Witness for C8: erasing index 1 of `[1, 2, 3]` gives `[1, 3]`. -/
theorem C8_erase_correct_witness :
    (canon [1, 2, 3] 0 : Vector Nat).Erase 1 = canon [1, 3] 1 ∧
    ((canon [1, 2, 3] 0 : Vector Nat).Erase 1).elems = [1, 3] ∧
    ((canon [1, 2, 3] 0 : Vector Nat).Erase 1).size = 2 ∧
    ((canon [1, 2, 3] 0 : Vector Nat).Erase 1).cap = (canon [1, 2, 3] 0 : Vector Nat).cap :=
  C8_erase_correct [1, 2, 3] 0 1 (by decide)

/-- C9 counterexample: `PopBack` on an empty vector does not trip any
assertion — the code contains no assert on that path, it is unchecked
undefined behavior (`size_ - 1` wraps and the destroy lands far outside the
buffer), so the claim that all three boundary violations are caught by an
assertion check is false for `PopBack`. -/
theorem C9_popback_not_assert :
    popBackO (vempty : Vector Nat) = Outcome.ub ∧
    popBackO (vempty : Vector Nat) ≠ Outcome.assertFail := by
  constructor
  · decide
  · decide

/-- C9 (amended): indexing with `index ≥ length` and taking the address of an
offset `> capacity` trip assertion checks; `PopBack` on an empty container is
unchecked undefined behavior (no assertion); and under the precondition
`length > 0`, `PopBack` destroys exactly the last element and decrements the
length by one. -/
theorem C9_contract_checks (α : Type) :
    (∀ (v : Vector α) (i : Nat), v.size ≤ i → vecIndex v i = Outcome.assertFail) ∧
    (∀ (m : Mem α) (off : Nat), m.length < off → rawPlus m off = Outcome.assertFail) ∧
    (∀ v : Vector α, v.size = 0 → popBackO v = Outcome.ub) ∧
    (∀ (l : List α) (k : Nat), 0 < l.length →
       popBackO (canon l k) = Outcome.ok (canon (l.take (l.length - 1)) (k + 1))) := by
  refine ⟨?_, ?_, ?_, ?_⟩
  · intro v i h
    rw [vecIndex, if_neg (by omega)]
  · intro m off h
    rw [rawPlus, if_neg (by omega)]
  · intro v h
    rw [popBackO, if_pos h]
  · intro l k hl
    rw [popBackO, if_neg (by rw [canon_size]; omega)]
    have hsome : mread (canon l k).data ((canon l k).size - 1) =
        some (l.get ⟨l.length - 1, by omega⟩) := by
      rw [canon_data, canon_size, mread_canonSlots,
          List.getElem?_eq_getElem (by omega)]
      simp [List.get_eq_getElem]
    rw [hsome]
    show Outcome.ok ((canon l k).PopBack) =
      Outcome.ok (canon (l.take (l.length - 1)) (k + 1))
    rw [popBack_canon l k hl]

/-- Witness for C9's amended theorem at concrete inputs. -/
theorem C9_contract_checks_witness :
    vecIndex (canon [5] 0 : Vector Nat) 3 = Outcome.assertFail ∧
    rawPlus ([some 1] : Mem Nat) 2 = Outcome.assertFail ∧
    popBackO (vempty : Vector Nat) = Outcome.ub ∧
    popBackO (canon [10, 20] 0 : Vector Nat) = Outcome.ok (canon [10] 1) := by
  obtain ⟨h1, h2, h3, h4⟩ := C9_contract_checks Nat
  exact ⟨h1 (canon [5] 0) 3 (by decide), h2 [some 1] 2 (by decide),
         h3 vempty rfl, h4 [10, 20] 0 (by decide)⟩

/-- C10: copy-assigning a vector to itself is a no-op — the `this == &rhs`
guard returns the container unchanged; moreover, even through the
buffer-reuse path, assigning a well-formed vector's value over itself leaves
every slot, the length and the capacity unchanged. -/
theorem C10_self_assign (v : Vector α) (l : List α) (k : Nat) :
    Vector.copyAssign true v v = v ∧
    Vector.copyAssign false (canon l k) (canon l k) = canon l k := by
  constructor
  · rw [Vector.copyAssign, if_pos rfl]
  · rw [copyAssign_canon l l k k, if_neg (by omega),
        show l.length + k - l.length = k by omega]

/-- C7: move construction and move assignment never fail (they are total and
emit no event, in particular no element constructor or destructor runs), the
destination takes over the source's buffer — same elements, same length, same
capacity — and the source is left with length 0, a null buffer and no owned
capacity. -/
theorem C7_move_semantics (dst src : IVec α) (st : St) :
    (moveCtorI src st).1.1 = src ∧
    ielems (moveCtorI src st).1.1 = ielems src ∧
    (moveCtorI src st).1.2.size = 0 ∧
    (moveCtorI src st).1.2.data.blk = none ∧
    (moveCtorI src st).1.2.data.slots.length = 0 ∧
    (moveCtorI src st).2 = st ∧
    (moveAssignI dst src st).1.1 = src ∧
    ielems (moveAssignI dst src st).1.1 = ielems src ∧
    (moveAssignI dst src st).1.2.size = 0 ∧
    (moveAssignI dst src st).1.2.data.blk = none ∧
    (moveAssignI dst src st).1.2.data.slots.length = 0 ∧
    (moveAssignI dst src st).2 = st :=
  ⟨rfl, rfl, rfl, rfl, rfl, rfl, rfl, rfl, rfl, rfl, rfl, rfl⟩

theorem noFail_eq (c : Nat) : noFail c = false := rfl

theorem uCopyF_noFail (src : Mem α) (s d n done : Nat) (dst : Mem α) (st : St) :
    uCopyF noFail src s d n done dst st =
      (some (copyRange src s d n dst),
       ⟨st.cnt + n, st.nextId, st.tr ++ List.replicate n Ev.ctor⟩) :=
  uCopyF_ok noFail src s d n done dst st (firstFail_noFail st.cnt n)

theorem emplaceBackI_noFail_grow (x : α) (v : IVec α) (st : St)
    (hgrow : v.size = v.data.slots.length) :
    emplaceBackI noFail x v st =
      (Except.ok ⟨⟨some st.nextId,
          copyRange v.data.slots 0 0 v.size
            ((List.replicate (if v.size = 0 then 1 else v.size * 2)
               (none : Option α)).set v.size (some x))⟩, v.size + 1⟩,
       ⟨st.cnt + 1 + v.size, st.nextId + 1,
        st.tr ++ [Ev.alloc st.nextId, Ev.ctor] ++ List.replicate v.size Ev.ctor ++
          List.replicate v.size Ev.dtor⟩) := by
  have hn0 : ¬ (if v.size = 0 then 1 else v.size * 2) = 0 := by
    by_cases h : v.size = 0 <;> simp [h]
  rw [emplaceBackI, if_pos hgrow, allocRaw, if_neg hn0]
  simp [noFail_eq, uCopyF_noFail, emit, bump, List.append_assoc]

theorem emplaceBackI_noFail_fit (x : α) (v : IVec α) (st : St)
    (hfit : ¬ v.size = v.data.slots.length) :
    emplaceBackI noFail x v st =
      (Except.ok ⟨⟨v.data.blk, v.data.slots.set v.size (some x)⟩, v.size + 1⟩,
       ⟨st.cnt + 1, st.nextId, st.tr ++ [Ev.ctor]⟩) := by
  rw [emplaceBackI, if_neg hfit]
  simp [noFail_eq, emit, bump]

theorem emplaceI_noFail_delegate (x : α) (pos : Nat) (v : IVec α) (st : St)
    (hpos : pos = v.size) :
    emplaceI noFail x pos v st =
      ((emplaceBackI noFail x v st).1, (emplaceBackI noFail x v st).2, 0) := by
  rw [emplaceI, if_pos hpos]

theorem emplaceI_noFail_grow (x : α) (pos : Nat) (v : IVec α) (st : St)
    (hne : ¬ pos = v.size) (hgrow : v.size = v.data.slots.length) :
    emplaceI noFail x pos v st =
      (Except.ok ⟨⟨some st.nextId,
          copyRange v.data.slots pos (pos+1) (v.size - pos)
            (copyRange v.data.slots 0 0 pos
              ((List.replicate (if v.size = 0 then 1 else v.size * 2)
                 (none : Option α)).set pos (some x)))⟩, v.size + 1⟩,
       ⟨st.cnt + 1 + pos + (v.size - pos), st.nextId + 1,
        st.tr ++ [Ev.alloc st.nextId, Ev.ctor] ++ List.replicate pos Ev.ctor ++
          List.replicate (v.size - pos) Ev.ctor ++
          List.replicate v.size Ev.dtor⟩, 0) := by
  have hn0 : ¬ (if v.size = 0 then 1 else v.size * 2) = 0 := by
    by_cases h : v.size = 0 <;> simp [h]
  rw [emplaceI, if_neg hne, if_pos hgrow, allocRaw, if_neg hn0]
  simp [noFail_eq, uCopyF_noFail, emit, bump, List.append_assoc]

theorem emplaceI_noFail_fit (x : α) (pos : Nat) (v : IVec α) (st : St)
    (hne : ¬ pos = v.size) (hfit : ¬ v.size = v.data.slots.length) :
    emplaceI noFail x pos v st =
      (Except.ok ⟨⟨v.data.blk,
          (moveRangeBwd v.size (v.size - 1) (v.size - 1 - pos)
            (v.data.slots.set v.size (mread v.data.slots (v.size - 1)))).set pos
            (some x)⟩, v.size + 1⟩,
       ⟨st.cnt + 2, st.nextId, st.tr ++ [Ev.ctor] ++ [Ev.ctor, Ev.dtor]⟩, 0) := by
  rw [emplaceI, if_neg hne, if_neg hfit]
  simp [noFail_eq, emit, bump, List.append_assoc]

/-- C4: a `PushBack`/`EmplaceBack`/`Insert`/`Emplace` allocates a new buffer
(an `alloc` event in the trace) if and only if `length == capacity` at the
time of the call, and in that case the new capacity is
`max(1, 2 × previous capacity)`; otherwise the capacity is unchanged.  Stated
over the instrumented operations with the never-throwing fault model. -/
theorem C4_growth_trigger (x : α) (v : IVec α) (st : St) (pos : Nat)
    (_hpos : pos ≤ v.size) :
    (allocCount (emplaceBackI noFail x v st).2.tr =
       allocCount st.tr + (if v.size = v.data.slots.length then 1 else 0)) ∧
    (∀ w, (emplaceBackI noFail x v st).1 = Except.ok w →
       w.data.slots.length =
         (if v.size = v.data.slots.length
          then max 1 (2 * v.data.slots.length) else v.data.slots.length)) ∧
    (allocCount (emplaceI noFail x pos v st).2.1.tr =
       allocCount st.tr + (if v.size = v.data.slots.length then 1 else 0)) ∧
    (∀ w, (emplaceI noFail x pos v st).1 = Except.ok w →
       w.data.slots.length =
         (if v.size = v.data.slots.length
          then max 1 (2 * v.data.slots.length) else v.data.slots.length)) := by
  have hback1 : allocCount (emplaceBackI noFail x v st).2.tr =
      allocCount st.tr + (if v.size = v.data.slots.length then 1 else 0) := by
    by_cases hgrow : v.size = v.data.slots.length
    · rw [emplaceBackI_noFail_grow x v st hgrow, if_pos hgrow]
      rw [allocCount_append, allocCount_append, allocCount_append,
          allocCount_replicate v.size Ev.ctor rfl,
          allocCount_replicate v.size Ev.dtor rfl,
          show allocCount [Ev.alloc st.nextId, Ev.ctor] = 1 from rfl]
    · rw [emplaceBackI_noFail_fit x v st hgrow, if_neg hgrow,
          allocCount_append, show allocCount [Ev.ctor] = 0 from rfl]
  have hback2 : ∀ w, (emplaceBackI noFail x v st).1 = Except.ok w →
      w.data.slots.length =
        (if v.size = v.data.slots.length
         then max 1 (2 * v.data.slots.length) else v.data.slots.length) := by
    intro w hw
    by_cases hgrow : v.size = v.data.slots.length
    · rw [emplaceBackI_noFail_grow x v st hgrow] at hw
      simp only [Except.ok.injEq] at hw
      rw [← hw, if_pos hgrow]
      rw [copyRange_length, List.length_set, List.length_replicate]
      by_cases h0 : v.size = 0 <;> simp [h0] <;> omega
    · rw [emplaceBackI_noFail_fit x v st hgrow] at hw
      simp only [Except.ok.injEq] at hw
      rw [← hw, if_neg hgrow]
      rw [List.length_set]
  refine ⟨hback1, hback2, ?_, ?_⟩
  · by_cases hdel : pos = v.size
    · rw [emplaceI_noFail_delegate x pos v st hdel]
      exact hback1
    · by_cases hgrow : v.size = v.data.slots.length
      · rw [emplaceI_noFail_grow x pos v st hdel hgrow, if_pos hgrow]
        rw [allocCount_append, allocCount_append, allocCount_append,
            allocCount_append, allocCount_replicate pos Ev.ctor rfl,
            allocCount_replicate (v.size - pos) Ev.ctor rfl,
            allocCount_replicate v.size Ev.dtor rfl,
            show allocCount [Ev.alloc st.nextId, Ev.ctor] = 1 from rfl]
      · rw [emplaceI_noFail_fit x pos v st hdel hgrow, if_neg hgrow,
            allocCount_append, allocCount_append,
            show allocCount [Ev.ctor] = 0 from rfl,
            show allocCount [Ev.ctor, Ev.dtor] = 0 from rfl]
  · intro w hw
    by_cases hdel : pos = v.size
    · rw [emplaceI_noFail_delegate x pos v st hdel] at hw
      exact hback2 w hw
    · by_cases hgrow : v.size = v.data.slots.length
      · rw [emplaceI_noFail_grow x pos v st hdel hgrow] at hw
        simp only [Except.ok.injEq] at hw
        rw [← hw, if_pos hgrow]
        rw [copyRange_length, copyRange_length, List.length_set,
            List.length_replicate]
        by_cases h0 : v.size = 0 <;> simp [h0] <;> omega
      · rw [emplaceI_noFail_fit x pos v st hdel hgrow] at hw
        simp only [Except.ok.injEq] at hw
        rw [← hw, if_neg hgrow]
        rw [List.length_set, moveRangeBwd_length, List.length_set]

/-- Witness for C4: a full one-element vector reallocates on `EmplaceBack`
(capacity 1 → 2) and on `Emplace` at position 0, and the traces record
exactly one allocation. -/
theorem C4_growth_trigger_witness :
    allocCount (emplaceBackI noFail 5 ⟨⟨some 0, [some 1]⟩, 1⟩ ⟨0, 0, []⟩).2.tr = 1 ∧
    (∀ w, (emplaceBackI noFail 5 ⟨⟨some 0, [some 1]⟩, 1⟩ ⟨0, 0, []⟩).1 = Except.ok w →
       w.data.slots.length = 2) ∧
    allocCount (emplaceI noFail 5 0 ⟨⟨some 0, [some 1]⟩, 1⟩ ⟨0, 0, []⟩).2.1.tr = 1 ∧
    (∀ w, (emplaceI noFail 5 0 ⟨⟨some 0, [some 1]⟩, 1⟩ ⟨0, 0, []⟩).1 = Except.ok w →
       w.data.slots.length = 2) := by
  have h := C4_growth_trigger 5 (⟨⟨some 0, [some 1]⟩, 1⟩ : IVec Nat) ⟨0, 0, []⟩ 0
    (by decide)
  exact ⟨h.1, h.2.1, h.2.2.1, h.2.2.2⟩

/-- C6: copy assignment of `src` over a distinct `dst`: the result holds a
copy of `src`'s elements with `src`'s length; if `src.length` exceeds `dst`'s
capacity the result's capacity is exactly `src.length` (temporary-and-swap),
otherwise the existing buffer is reused and the capacity is unchanged.  On
the temporary-and-swap path an element-copy failure under any fault model
returns the destination unchanged (strong guarantee).  On the in-place path
(never-throwing fault model): when shrinking, exactly the excess trailing
elements are destroyed and nothing is constructed; when growing within
capacity, the overlapping part is copy-assigned and exactly the missing
trailing elements are copy-constructed. -/
theorem C6_copy_assign (lD lS : List α) (kD kS : Nat) :
    ((Vector.copyAssign false (canon lD kD) (canon lS kS)).elems = lS ∧
     (Vector.copyAssign false (canon lD kD) (canon lS kS)).size = lS.length ∧
     (Vector.copyAssign false (canon lD kD) (canon lS kS)).cap =
       (if lD.length + kD < lS.length then lS.length else lD.length + kD)) ∧
    (∀ (fm : Nat → Bool) (dst src : IVec α) (st : St) (w : IVec α),
       dst.data.slots.length < src.size →
       (copyAssignI fm dst src st).1 = Except.error w → w = dst) ∧
    (∀ (dst src : IVec α) (st : St),
       ¬ dst.data.slots.length < src.size → src.size < dst.size →
       copyAssignI noFail dst src st =
         (Except.ok ⟨⟨dst.data.blk,
             clearRange src.size (dst.size - src.size)
               (copyRange src.data.slots 0 0 src.size dst.data.slots)⟩, src.size⟩,
          ⟨st.cnt, st.nextId,
           st.tr ++ List.replicate (dst.size - src.size) Ev.dtor⟩)) ∧
    (∀ (dst src : IVec α) (st : St),
       ¬ dst.data.slots.length < src.size → ¬ src.size < dst.size →
       copyAssignI noFail dst src st =
         (Except.ok ⟨⟨dst.data.blk,
             copyRange src.data.slots dst.size dst.size (src.size - dst.size)
               (copyRange src.data.slots 0 0 dst.size dst.data.slots)⟩, src.size⟩,
          ⟨st.cnt + (src.size - dst.size), st.nextId,
           st.tr ++ List.replicate (src.size - dst.size) Ev.ctor⟩)) := by
  refine ⟨⟨?_, ?_, ?_⟩, ?_, ?_, ?_⟩
  · rw [copyAssign_canon lD lS kD kS, elems_canon]
  · rw [copyAssign_canon lD lS kD kS, canon_size]
  · rw [copyAssign_canon lD lS kD kS, Vector.cap, canon_data, canonSlots_length]
    by_cases h : lD.length + kD < lS.length
    · rw [if_pos h, if_pos h]
      omega
    · rw [if_neg h, if_neg h]
      omega
  · intro fm dst src st w h1 h2
    simp only [copyAssignI, if_pos h1] at h2
    cases hq : (uCopyF fm src.data.slots 0 0 src.size 0
        (allocRaw src.size st).1.slots (allocRaw src.size st).2).1 with
    | none =>
      rw [hq] at h2
      simp at h2
      exact h2.symm
    | some m =>
      rw [hq] at h2
      simp at h2
  · intro dst src st h1 h2
    rw [copyAssignI, if_neg h1, if_pos h2]
    simp [emit]
  · intro dst src st h1 h2
    rw [copyAssignI, if_neg h1, if_neg h2]
    simp [noFail_eq, uCopyF_noFail, emit]

/-- Witness for C6 at concrete inputs: assigning `[7, 8, 9]` over `[1]` with
capacity 1 (temporary-and-swap), including a faulted run that leaves the
destination untouched, and the two in-place runs. -/
theorem C6_copy_assign_witness :
    ((Vector.copyAssign false (canon [1] 0) (canon [7, 8, 9] 0)).elems = [7, 8, 9] ∧
     (Vector.copyAssign false (canon [1] 0) (canon [7, 8, 9] 0)).size = 3 ∧
     (Vector.copyAssign false (canon [1] 0) (canon [7, 8, 9] 0)).cap = 3) ∧
    (∀ w, (copyAssignI (fun n => n == 1) (⟨⟨some 0, [some 1]⟩, 1⟩ : IVec Nat)
        ⟨⟨some 1, [some 7, some 8, some 9]⟩, 3⟩ ⟨0, 2, []⟩).1 = Except.error w →
       w = ⟨⟨some 0, [some 1]⟩, 1⟩) ∧
    copyAssignI noFail (⟨⟨some 0, [some 1, some 2]⟩, 2⟩ : IVec Nat)
        ⟨⟨some 1, [some 7]⟩, 1⟩ ⟨0, 2, []⟩ =
      (Except.ok ⟨⟨some 0, [some 7, none]⟩, 1⟩, ⟨0, 2, [Ev.dtor]⟩) ∧
    copyAssignI noFail (⟨⟨some 0, [some 1, none]⟩, 1⟩ : IVec Nat)
        ⟨⟨some 1, [some 7, some 8]⟩, 2⟩ ⟨0, 2, []⟩ =
      (Except.ok ⟨⟨some 0, [some 7, some 8]⟩, 2⟩, ⟨1, 2, [Ev.ctor]⟩) := by
  have h := C6_copy_assign [1] [7, 8, 9] 0 0
  refine ⟨h.1, ?_, ?_, ?_⟩
  · intro w hw
    exact h.2.1 (fun n => n == 1) ⟨⟨some 0, [some 1]⟩, 1⟩
      ⟨⟨some 1, [some 7, some 8, some 9]⟩, 3⟩ ⟨0, 2, []⟩ w (by decide) hw
  · have h3 := h.2.2.1 (⟨⟨some 0, [some 1, some 2]⟩, 2⟩ : IVec Nat)
      ⟨⟨some 1, [some 7]⟩, 1⟩ ⟨0, 2, []⟩ (by decide) (by decide)
    exact h3
  · have h4 := h.2.2.2 (⟨⟨some 0, [some 1, none]⟩, 1⟩ : IVec Nat)
      ⟨⟨some 1, [some 7, some 8]⟩, 2⟩ ⟨0, 2, []⟩ (by decide) (by decide)
    exact h4

/-- C1 (code-bug evidence): a growth-triggering `EmplaceBack` on the vector
`[7]` (capacity 1, block 0) under a fault model whose second element
construction — the transfer of the old element into the new buffer — throws:
the call fails, the container is returned exactly as it was and the new block
(id 1) is freed, but the trace shows one constructor run and zero destructor
runs — the tail element already constructed in the new buffer is never
destroyed, because `EmplaceBack` (unlike `Emplace`) has no catch block.  This
contradicts the claim that every partially constructed element of the new
buffer, including the new tail element, is destroyed. -/
theorem C1_emplaceback_leaks_tail :
    c1Run.1 = Except.error ⟨⟨some 0, [some 7]⟩, 1⟩ ∧
    c1Run.2.tr = [Ev.alloc 1, Ev.ctor, Ev.free 1] ∧
    c1Run.2.tr.count Ev.ctor = 1 ∧
    c1Run.2.tr.count Ev.dtor = 0 :=
  ⟨rfl, rfl, rfl, rfl⟩

/-- C2 (code-bug evidence): build two one-element vectors (blocks 0 and 1),
move-assign the second over the first, then destroy both.  Block 1 is freed
exactly once, but block 0 — the destination's original buffer — is allocated
and never freed: `RawMemory`'s move assignment overwrites `buffer_` with
`std::exchange` and never calls `Deallocate` on the old block, so the claim
that every allocated block is released exactly once by the time the owning
containers are destroyed is false. -/
theorem C2_move_assign_leaks :
    c2Trace = [Ev.alloc 0, Ev.ctor, Ev.alloc 1, Ev.ctor, Ev.dtor, Ev.free 1] ∧
    c2Trace.count (Ev.alloc 0) = 1 ∧
    c2Trace.count (Ev.free 0) = 0 ∧
    c2Trace.count (Ev.alloc 1) = 1 ∧
    c2Trace.count (Ev.free 1) = 1 :=
  ⟨rfl, rfl, rfl, rfl, rfl⟩

@[simp] theorem fullIVec_size (b : Option Nat) (l : List α) :
    (fullIVec b l : IVec α).size = l.length := rfl

@[simp] theorem fullIVec_slots (b : Option Nat) (l : List α) :
    (fullIVec b l : IVec α).data.slots = l.map some := rfl

@[simp] theorem fullIVec_blk (b : Option Nat) (l : List α) :
    (fullIVec b l : IVec α).data.blk = b := rfl

/-- The new buffer built by a growth-triggering positional insert: the new
element at its final offset, the old elements copied around it, the remaining
slots untouched. -/
theorem emplaceGrowSlots (l : List α) (p : Nat) (x : α) (hp : p < l.length) :
    copyRange (l.map some) p (p+1) (l.length - p)
      (copyRange (l.map some) 0 0 p
        ((List.replicate (l.length * 2) (none : Option α)).set p (some x)))
    = canonSlots (insertAtL l p x) (l.length * 2 - (l.length + 1)) := by
  refine mext ?_ ?_
  · rw [copyRange_length, copyRange_length, List.length_set,
        List.length_replicate, canonSlots_length,
        length_insertAtL l p x (by omega)]
    omega
  · intro j
    simp only [mread_copyRange, copyRange_length, List.length_set,
      List.length_replicate, mread_set, mread_mapSome, mread_replicate_none,
      mread_canonSlots, Nat.zero_add, Nat.sub_zero, Nat.zero_le, true_and]
    rw [getp_insertAtL l p x j (by omega)]
    by_cases h1 : p + 1 ≤ j ∧ j < p + 1 + (l.length - p) ∧ j < l.length * 2
    · rw [if_pos h1, if_neg (by omega), if_neg (by omega)]
      congr 1
      omega
    · rw [if_neg h1]
      by_cases h2 : j < p
      · rw [if_pos ⟨h2, by omega⟩, if_pos h2]
      · rw [if_neg (by omega)]
        by_cases h3 : j = p
        · rw [if_pos ⟨by omega, by omega⟩, if_neg (by omega), if_pos h3]
        · rw [if_neg (by omega), if_neg (by omega), if_neg h3,
              List.getElem?_eq_none (by omega)]

/-- C3: a growth-triggering `Emplace`/`Insert` at an interior position
`pos < length` (stated on a full instrumented vector, under any fault model):
(1) the new element is constructed first, at its final offset in the new
buffer, and if that construction throws the old buffer is untouched and the
new block is released; (2) if the transfer of the elements before `pos`
throws at its `i`-th copy, the `catch` destroys only the newly constructed
element (one handler destructor), every construction in the new buffer is
matched by a destruction, the new block is released and the container is
returned unchanged; (3) if the transfer of the elements from `pos` on throws,
the `catch` destroys the new element plus the `pos` already-transferred
elements, the new block is released and the container is returned unchanged;
(4) only on full success are the old elements destroyed (`length`
destructors) and the new buffer adopted, and the result holds the old
elements with `x` inserted at `pos`. -/
theorem C3_emplace_growth (fm : Nat → Bool) (b : Option Nat) (l : List α)
    (pos : Nat) (x : α) (st : St) (hp : pos < l.length) :
    (fm st.cnt = true →
       emplaceI fm x pos (fullIVec b l) st =
         (Except.error (fullIVec b l),
          ⟨st.cnt + 1, st.nextId + 1,
           st.tr ++ [Ev.alloc st.nextId, Ev.free st.nextId]⟩, 0)) ∧
    (∀ i, fm st.cnt = false → firstFail fm (st.cnt + 1) pos = some i →
       emplaceI fm x pos (fullIVec b l) st =
         (Except.error (fullIVec b l),
          ⟨st.cnt + i + 2, st.nextId + 1,
           st.tr ++ [Ev.alloc st.nextId, Ev.ctor] ++ List.replicate i Ev.ctor ++
             List.replicate i Ev.dtor ++ [Ev.dtor, Ev.free st.nextId]⟩, 1)) ∧
    (∀ i, fm st.cnt = false → firstFail fm (st.cnt + 1) pos = none →
       firstFail fm (st.cnt + 1 + pos) (l.length - pos) = some i →
       emplaceI fm x pos (fullIVec b l) st =
         (Except.error (fullIVec b l),
          ⟨st.cnt + pos + i + 2, st.nextId + 1,
           st.tr ++ [Ev.alloc st.nextId, Ev.ctor] ++ List.replicate pos Ev.ctor ++
             List.replicate i Ev.ctor ++ List.replicate i Ev.dtor ++
             List.replicate (pos + 1) Ev.dtor ++ [Ev.free st.nextId]⟩, pos + 1)) ∧
    (fm st.cnt = false → firstFail fm (st.cnt + 1) pos = none →
       firstFail fm (st.cnt + 1 + pos) (l.length - pos) = none →
       (∃ w, (emplaceI fm x pos (fullIVec b l) st).1 = Except.ok w) ∧
       (emplaceI fm x pos (fullIVec b l) st).2 =
         (⟨st.cnt + 1 + pos + (l.length - pos), st.nextId + 1,
           st.tr ++ [Ev.alloc st.nextId, Ev.ctor] ++ List.replicate pos Ev.ctor ++
             List.replicate (l.length - pos) Ev.ctor ++
             List.replicate l.length Ev.dtor⟩, 0) ∧
       (∀ w, (emplaceI fm x pos (fullIVec b l) st).1 = Except.ok w →
          ielems w = insertAtL l pos x ∧ w.size = l.length + 1 ∧
          w.data.slots.length = l.length * 2 ∧ w.data.blk = some st.nextId)) := by
  have hne : ¬ pos = (fullIVec b l : IVec α).size := by
    rw [fullIVec_size]
    omega
  have hgrow : (fullIVec b l : IVec α).size =
      (fullIVec b l : IVec α).data.slots.length := by
    simp
  have hifcap : (if (fullIVec b l : IVec α).size = 0 then 1
      else (fullIVec b l : IVec α).size * 2) = l.length * 2 := by
    rw [fullIVec_size, if_neg (by omega)]
  have hn0 : ¬ l.length * 2 = 0 := by omega
  refine ⟨?_, ?_, ?_, ?_⟩
  · intro hf
    rw [emplaceI, if_neg hne, if_pos hgrow, hifcap, allocRaw, if_neg hn0]
    simp [hf, freeRaw, emit, bump, List.append_assoc]
  · intro i hf h1
    rw [emplaceI, if_neg hne, if_pos hgrow, hifcap, allocRaw, if_neg hn0]
    simp only [fullIVec_size, fullIVec_slots, fullIVec_blk, emit, bump, hf,
      Bool.false_eq_true, if_false]
    have herr := uCopyF_fail fm (l.map some) 0 0 pos 0
      ((List.replicate (l.length * 2) (none : Option α)).set pos (some x))
      ⟨st.cnt + 1, st.nextId + 1, st.tr ++ [Ev.alloc st.nextId] ++ [Ev.ctor]⟩ i h1
    rw [herr]
    simp [freeRaw, emit, List.append_assoc]
    omega
  · intro i hf h1 h2
    rw [emplaceI, if_neg hne, if_pos hgrow, hifcap, allocRaw, if_neg hn0]
    simp only [fullIVec_size, fullIVec_slots, fullIVec_blk, emit, bump, hf,
      Bool.false_eq_true, if_false]
    have hok := uCopyF_ok fm (l.map some) 0 0 pos 0
      ((List.replicate (l.length * 2) (none : Option α)).set pos (some x))
      ⟨st.cnt + 1, st.nextId + 1, st.tr ++ [Ev.alloc st.nextId] ++ [Ev.ctor]⟩ h1
    simp only [hok]
    have herr := uCopyF_fail fm (l.map some) pos (pos + 1) (l.length - pos) 0
      (copyRange (l.map some) 0 0 pos
        ((List.replicate (l.length * 2) (none : Option α)).set pos (some x)))
      ⟨st.cnt + 1 + pos, st.nextId + 1,
       st.tr ++ [Ev.alloc st.nextId] ++ [Ev.ctor] ++ List.replicate pos Ev.ctor⟩ i h2
    simp only [herr]
    simp [freeRaw, emit, List.append_assoc]
    omega
  · intro hf h1 h2
    rw [emplaceI, if_neg hne, if_pos hgrow, hifcap, allocRaw, if_neg hn0]
    simp only [fullIVec_size, fullIVec_slots, fullIVec_blk, emit, bump, hf,
      Bool.false_eq_true, if_false]
    have hok := uCopyF_ok fm (l.map some) 0 0 pos 0
      ((List.replicate (l.length * 2) (none : Option α)).set pos (some x))
      ⟨st.cnt + 1, st.nextId + 1, st.tr ++ [Ev.alloc st.nextId] ++ [Ev.ctor]⟩ h1
    simp only [hok]
    have hok2 := uCopyF_ok fm (l.map some) pos (pos + 1) (l.length - pos) 0
      (copyRange (l.map some) 0 0 pos
        ((List.replicate (l.length * 2) (none : Option α)).set pos (some x)))
      ⟨st.cnt + 1 + pos, st.nextId + 1,
       st.tr ++ [Ev.alloc st.nextId] ++ [Ev.ctor] ++ List.replicate pos Ev.ctor⟩ h2
    simp only [hok2]
    refine ⟨⟨_, rfl⟩, ?_, ?_⟩
    · simp [emit, List.append_assoc]
    · intro w hw
      simp only [Except.ok.injEq] at hw
      rw [← hw]
      refine ⟨?_, rfl, ?_, rfl⟩
      · show ielems ⟨⟨some st.nextId,
          copyRange (l.map some) pos (pos+1) (l.length - pos)
            (copyRange (l.map some) 0 0 pos
              ((List.replicate (l.length * 2) (none : Option α)).set pos
                (some x)))⟩, l.length + 1⟩ = insertAtL l pos x
        have hi : ielems ⟨⟨some st.nextId,
            copyRange (l.map some) pos (pos+1) (l.length - pos)
              (copyRange (l.map some) 0 0 pos
                ((List.replicate (l.length * 2) (none : Option α)).set pos
                  (some x)))⟩, l.length + 1⟩ =
            (canon (insertAtL l pos x) (l.length * 2 - (l.length + 1))).elems := by
          rw [ielems, Vector.elems, canon_size, canon_data,
              emplaceGrowSlots l pos x hp, length_insertAtL l pos x (by omega)]
        rw [hi, elems_canon]
      · show (copyRange (l.map some) pos (pos+1) (l.length - pos)
            (copyRange (l.map some) 0 0 pos
              ((List.replicate (l.length * 2) (none : Option α)).set pos
                (some x)))).length = l.length * 2
        rw [copyRange_length, copyRange_length, List.length_set,
            List.length_replicate]

/-- Witness for C3: on the vector `[10, 20]` (block 7, capacity 2), an insert
at position 1 whose prefix transfer throws on its first copy: the container
is returned unchanged, the catch destroys exactly the new element, and the
new block (id 3) is freed. -/
theorem C3_emplace_growth_witness :
    emplaceI (fun n => n == 1) 99 1 (fullIVec (some 7) [10, 20]) ⟨0, 3, []⟩ =
      (Except.error (fullIVec (some 7) [10, 20]),
       ⟨2, 4, [Ev.alloc 3, Ev.ctor, Ev.dtor, Ev.free 3]⟩, 1) :=
  (C3_emplace_growth (fun n => n == 1) (some 7) [10, 20] 1 99 ⟨0, 3, []⟩
      (by decide)).2.1 0 rfl (by decide)

end AV
